import Mathlib

/-!
Verification of the tile arithmetic in `include/osmium/geom/tile.hpp` from
libosmium.  Doubles are modelled as exact rationals (every quantity the
claims touch — the projection bound, tile extents, quotients at the
boundaries — is exactly representable and all operations involved are
monotone under IEEE rounding, so the exact model is faithful for these
properties).  The C++ `static_cast<int32_t>(double)` truncates toward zero
and is undefined when the truncated value does not fit in `int32_t`; it is
modelled as an `Option`, `none` marking the undefined case.
-/

namespace Osmium

/-- Modelled from the spec: `detail::max_coordinate_epsg3857` lives in
`mercator_projection.hpp`, which is not under `src/`.  The spec describes it
as "a maximum-coordinate constant defining the projection's square extent";
we use the web-mercator bound 20037508.342789244 as an exact rational. -/
def max_coordinate_epsg3857 : ℚ := 20037508342789244 / 1000000000

/-- `detail::clamp` from tile.hpp, instantiated at `int32_t`:
`value < min ? min : (max < value ? max : value)`. -/
def clamp (value lo hi : ℤ) : ℤ :=
  if value < lo then lo else if hi < value then hi else value

/-- `num_tiles_in_zoom`: `1U << zoom` in `uint32_t` arithmetic. -/
def num_tiles_in_zoom (zoom : ℕ) : ℕ :=
  (1 <<< zoom) % 2 ^ 32

/-- `tile_extent_in_zoom`:
`detail::max_coordinate_epsg3857 * 2 / num_tiles_in_zoom(zoom)`. -/
def tile_extent_in_zoom (zoom : ℕ) : ℚ :=
  max_coordinate_epsg3857 * 2 / (num_tiles_in_zoom zoom : ℚ)

/-- Truncation toward zero, the rounding used by C++ float-to-int
conversion. -/
def ratTrunc (q : ℚ) : ℤ :=
  if q < 0 then -⌊-q⌋ else ⌊q⌋

/-- `static_cast<int32_t>` applied to a floating-point value: truncate
toward zero; undefined (`none`) when the truncated value is outside
`[-2^31, 2^31 - 1]`. -/
def toInt32 (q : ℚ) : Option ℤ :=
  let t := ratTrunc q
  if -(2 ^ 31) ≤ t ∧ t ≤ 2 ^ 31 - 1 then some t else none

/-- `mercx_to_tilex(zoom, x)`:
`static_cast<uint32_t>(clamp<int32_t>(static_cast<int32_t>((x + max) / tile_extent_in_zoom(zoom)), 0, num_tiles_in_zoom(zoom) - 1))`. -/
def mercx_to_tilex (zoom : ℕ) (x : ℚ) : Option ℕ :=
  (toInt32 ((x + max_coordinate_epsg3857) / tile_extent_in_zoom zoom)).map
    (fun v => (clamp v 0 ((num_tiles_in_zoom zoom : ℤ) - 1)).toNat)

/-- `mercy_to_tiley(zoom, y)`: as `mercx_to_tilex` but with the quotient
`(max - y) / tile_extent_in_zoom(zoom)`. -/
def mercy_to_tiley (zoom : ℕ) (y : ℚ) : Option ℕ :=
  (toInt32 ((max_coordinate_epsg3857 - y) / tile_extent_in_zoom zoom)).map
    (fun v => (clamp v 0 ((num_tiles_in_zoom zoom : ℤ) - 1)).toNat)

/-- `struct Tile` with its three `uint32_t` members, in declaration order. -/
structure Tile where
  x : ℕ
  y : ℕ
  z : ℕ
deriving DecidableEq

/-- `Tile::max_zoom`. -/
def Tile.max_zoom : ℕ := 30

/-- `Tile::valid()`: `z > max_zoom` gives false, otherwise both indices
must be below `num_tiles_in_zoom(z)`. -/
def Tile.valid (t : Tile) : Bool :=
  if t.z > Tile.max_zoom then
    false
  else
    decide (t.x < num_tiles_in_zoom t.z) && decide (t.y < num_tiles_in_zoom t.z)

/-- `operator==`: `lhs.z == rhs.z && lhs.x == rhs.x && lhs.y == rhs.y`. -/
def tileEq (lhs rhs : Tile) : Bool :=
  lhs.z == rhs.z && lhs.x == rhs.x && lhs.y == rhs.y

/-- `operator!=`: `!(lhs == rhs)`. -/
def tileNe (lhs rhs : Tile) : Bool :=
  !(tileEq lhs rhs)

/-- `operator<` on tiles: by `z`, then `x`, then `y`. -/
def tileLt (lhs rhs : Tile) : Bool :=
  if lhs.z < rhs.z then true
  else if rhs.z < lhs.z then false
  else if lhs.x < rhs.x then true
  else if rhs.x < lhs.x then false
  else decide (lhs.y < rhs.y)

/-- Modelled from the spec: `osmium::geom::Coordinates` (coordinates.hpp is
not under `src/`), "a coordinate-pair type with fields `x`, `y`". -/
structure Coordinates where
  x : ℚ
  y : ℚ

/-- Modelled from the spec: `osmium::Location` (location.hpp is not under
`src/`), a geographic location. -/
structure Location where
  lon : ℚ
  lat : ℚ

/-- The `Tile(uint32_t, const Coordinates&)` constructor: sets `z` to the
zoom and `x`, `y` from `mercx_to_tilex` / `mercy_to_tiley`; `none` when an
intermediate int32 conversion is undefined. -/
def tile_from_coordinates (zoom : ℕ) (coordinates : Coordinates) : Option Tile :=
  match mercx_to_tilex zoom coordinates.x, mercy_to_tiley zoom coordinates.y with
  | some tx, some ty => some ⟨tx, ty, zoom⟩
  | _, _ => none

/-- The `Tile(uint32_t, const Location&)` constructor: first converts the
location with `lonlat_to_mercator` — itself in `mercator_projection.hpp`,
not under `src/`, so modelled from the spec as an arbitrary
"location-to-projected-coordinate transform" passed as a parameter — and
then proceeds exactly as the coordinate constructor. -/
def tile_from_location (lonlat_to_mercator : Location → Coordinates)
    (zoom : ℕ) (location : Location) : Option Tile :=
  let coordinates := lonlat_to_mercator location
  match mercx_to_tilex zoom coordinates.x, mercy_to_tiley zoom coordinates.y with
  | some tx, some ty => some ⟨tx, ty, zoom⟩
  | _, _ => none

/-! Helper lemmas. -/

lemma max_coordinate_pos : 0 < max_coordinate_epsg3857 := by
  norm_num [max_coordinate_epsg3857]

lemma num_tiles_in_zoom_eq_pow (zoom : ℕ) (h : zoom ≤ 30) :
    num_tiles_in_zoom zoom = 2 ^ zoom := by
  unfold num_tiles_in_zoom
  rw [Nat.one_shiftLeft]
  exact Nat.mod_eq_of_lt (Nat.pow_lt_pow_right (by norm_num) (by omega))

lemma num_tiles_in_zoom_pos (zoom : ℕ) (h : zoom ≤ 30) :
    1 ≤ num_tiles_in_zoom zoom := by
  rw [num_tiles_in_zoom_eq_pow zoom h]
  exact Nat.one_le_two_pow

lemma tile_extent_eq (zoom : ℕ) (h : zoom ≤ 30) :
    tile_extent_in_zoom zoom = max_coordinate_epsg3857 * 2 / (2 ^ zoom : ℚ) := by
  unfold tile_extent_in_zoom
  rw [num_tiles_in_zoom_eq_pow zoom h]
  norm_cast

lemma tile_extent_pos (zoom : ℕ) (h : zoom ≤ 30) : 0 < tile_extent_in_zoom zoom := by
  rw [tile_extent_eq zoom h]
  apply div_pos
  · nlinarith [max_coordinate_pos]
  · positivity

lemma ratTrunc_of_nonneg (q : ℚ) (h : 0 ≤ q) : ratTrunc q = ⌊q⌋ := by
  unfold ratTrunc
  rw [if_neg (not_lt.mpr h)]

lemma ratTrunc_nonpos_of_neg (q : ℚ) (h : q < 0) : ratTrunc q ≤ 0 := by
  unfold ratTrunc
  rw [if_pos h]
  have : (0 : ℤ) ≤ ⌊-q⌋ := Int.floor_nonneg.mpr (by linarith)
  omega

lemma toInt32_some (q : ℚ) (hlo : -(2 ^ 31) ≤ ratTrunc q) (hhi : ratTrunc q ≤ 2 ^ 31 - 1) :
    toInt32 q = some (ratTrunc q) := by
  unfold toInt32
  rw [if_pos ⟨hlo, hhi⟩]

lemma clamp_le_hi (v lo hi : ℤ) (h : lo ≤ hi) : clamp v lo hi ≤ hi := by
  unfold clamp
  split_ifs <;> omega

lemma clamp_eq_hi (v lo hi : ℤ) (h1 : hi ≤ v) (h2 : lo ≤ hi) : clamp v lo hi = hi := by
  unfold clamp
  split_ifs <;> omega

lemma clamp_eq_lo (v lo hi : ℤ) (h1 : v ≤ lo) (h2 : lo ≤ hi) : clamp v lo hi = lo := by
  unfold clamp
  split_ifs <;> omega

lemma clamp_mono (a b lo hi : ℤ) (h : a ≤ b) (hlohi : lo ≤ hi) :
    clamp a lo hi ≤ clamp b lo hi := by
  unfold clamp
  split_ifs <;> omega

lemma mercx_quot_nonneg (zoom : ℕ) (hz : zoom ≤ 30) (x : ℚ)
    (h : -max_coordinate_epsg3857 ≤ x) :
    0 ≤ (x + max_coordinate_epsg3857) / tile_extent_in_zoom zoom :=
  div_nonneg (by linarith) (tile_extent_pos zoom hz).le

lemma mercx_quot_le (zoom : ℕ) (hz : zoom ≤ 30) (x : ℚ)
    (h : x ≤ max_coordinate_epsg3857) :
    (x + max_coordinate_epsg3857) / tile_extent_in_zoom zoom ≤ (2 : ℚ) ^ zoom := by
  have hp : (0 : ℚ) < (2 : ℚ) ^ zoom := by positivity
  have hM := max_coordinate_pos
  rw [tile_extent_eq zoom hz, div_div_eq_mul_div, div_le_iff₀ (by nlinarith)]
  nlinarith

/-- Evaluation of `mercx_to_tilex` when the coordinate is within the
projection bounds: the int32 conversion is always defined there. -/
lemma mercx_eval_in_bounds (zoom : ℕ) (hz : zoom ≤ 30) (x : ℚ)
    (h1 : -max_coordinate_epsg3857 ≤ x) (h2 : x ≤ max_coordinate_epsg3857) :
    mercx_to_tilex zoom x =
      some ((clamp ⌊(x + max_coordinate_epsg3857) / tile_extent_in_zoom zoom⌋
        0 ((2 : ℤ) ^ zoom - 1)).toNat) := by
  have hq0 := mercx_quot_nonneg zoom hz x h1
  have hqle := mercx_quot_le zoom hz x h2
  have ht := ratTrunc_of_nonneg _ hq0
  have hf0 : (0 : ℤ) ≤ ⌊(x + max_coordinate_epsg3857) / tile_extent_in_zoom zoom⌋ :=
    Int.floor_nonneg.mpr hq0
  have hfle : ⌊(x + max_coordinate_epsg3857) / tile_extent_in_zoom zoom⌋ ≤ (2 : ℤ) ^ zoom := by
    have h' : (x + max_coordinate_epsg3857) / tile_extent_in_zoom zoom
        ≤ (((2 : ℤ) ^ zoom : ℤ) : ℚ) := by
      push_cast
      exact hqle
    have h2' := Int.floor_le_floor h'
    rwa [Int.floor_intCast] at h2'
  have hpow : (2 : ℤ) ^ zoom ≤ 2 ^ 30 := pow_le_pow_right₀ (by norm_num) hz
  have hub : ⌊(x + max_coordinate_epsg3857) / tile_extent_in_zoom zoom⌋ ≤ (1073741824 : ℤ) := by
    have h := hfle.trans hpow
    norm_num at h
    exact h
  unfold mercx_to_tilex
  rw [toInt32_some _ (by rw [ht]; omega) (by rw [ht]; norm_num; omega), ht,
    num_tiles_in_zoom_eq_pow zoom hz]
  push_cast
  rfl

lemma two_pow_int_pos (zoom : ℕ) : (1 : ℤ) ≤ (2 : ℤ) ^ zoom := by
  have := pow_pos (show (0 : ℤ) < 2 by norm_num) zoom
  omega

lemma mercx_at_min (zoom : ℕ) (hz : zoom ≤ 30) :
    mercx_to_tilex zoom (-max_coordinate_epsg3857) = some 0 := by
  have hM := max_coordinate_pos
  rw [mercx_eval_in_bounds zoom hz _ le_rfl (by linarith)]
  rw [show -max_coordinate_epsg3857 + max_coordinate_epsg3857 = 0 from by ring, zero_div,
    Int.floor_zero, clamp_eq_lo 0 0 _ le_rfl (by have := two_pow_int_pos zoom; omega)]
  rfl

lemma mercx_at_max (zoom : ℕ) (hz : zoom ≤ 30) :
    mercx_to_tilex zoom max_coordinate_epsg3857 = some (num_tiles_in_zoom zoom - 1) := by
  have hM := max_coordinate_pos
  have hp : (0 : ℚ) < (2 : ℚ) ^ zoom := by positivity
  have h1 := two_pow_int_pos zoom
  rw [mercx_eval_in_bounds zoom hz _ (by linarith) le_rfl]
  have hq : (max_coordinate_epsg3857 + max_coordinate_epsg3857) / tile_extent_in_zoom zoom
      = (((2 : ℤ) ^ zoom : ℤ) : ℚ) := by
    rw [tile_extent_eq zoom hz]
    push_cast
    field_simp
    ring
  rw [hq, Int.floor_intCast, clamp_eq_hi _ 0 _ (by omega) (by omega),
    num_tiles_in_zoom_eq_pow zoom hz]
  have hcast : (((2 : ℕ) ^ zoom : ℕ) : ℤ) = (2 : ℤ) ^ zoom := by push_cast; ring
  congr 1
  omega

lemma mercx_beyond_max (zoom : ℕ) (hz : zoom ≤ 30) (x : ℚ)
    (hx : max_coordinate_epsg3857 < x)
    (hcast : ratTrunc ((x + max_coordinate_epsg3857) / tile_extent_in_zoom zoom) ≤ 2 ^ 31 - 1) :
    mercx_to_tilex zoom x = some (num_tiles_in_zoom zoom - 1) := by
  have hM := max_coordinate_pos
  have hp : (0 : ℚ) < (2 : ℚ) ^ zoom := by positivity
  have hext := tile_extent_pos zoom hz
  have h1 := two_pow_int_pos zoom
  have hq : (2 : ℚ) ^ zoom < (x + max_coordinate_epsg3857) / tile_extent_in_zoom zoom := by
    rw [lt_div_iff₀ hext]
    have hcancel : (2 : ℚ) ^ zoom * tile_extent_in_zoom zoom
        = max_coordinate_epsg3857 * 2 := by
      rw [tile_extent_eq zoom hz]
      field_simp
    rw [hcancel]
    linarith
  have hq0 : 0 ≤ (x + max_coordinate_epsg3857) / tile_extent_in_zoom zoom := by
    linarith
  have ht := ratTrunc_of_nonneg _ hq0
  have hfloor : (2 : ℤ) ^ zoom ≤ ⌊(x + max_coordinate_epsg3857) / tile_extent_in_zoom zoom⌋ := by
    apply Int.le_floor.mpr
    push_cast
    linarith
  unfold mercx_to_tilex
  rw [toInt32_some _ (by rw [ht]; linarith [hfloor]) hcast, ht,
    num_tiles_in_zoom_eq_pow zoom hz]
  have hcastn : (((2 : ℕ) ^ zoom : ℕ) : ℤ) = (2 : ℤ) ^ zoom := by push_cast; ring
  simp only [Option.map_some']
  rw [clamp_eq_hi _ 0 _ (by omega) (by omega)]
  congr 1
  omega

lemma mercx_beyond_min (zoom : ℕ) (hz : zoom ≤ 30) (x : ℚ)
    (hx : x < -max_coordinate_epsg3857)
    (hcast : -(2 ^ 31)
      ≤ ratTrunc ((x + max_coordinate_epsg3857) / tile_extent_in_zoom zoom)) :
    mercx_to_tilex zoom x = some 0 := by
  have hext := tile_extent_pos zoom hz
  have h1 := two_pow_int_pos zoom
  have hqneg : (x + max_coordinate_epsg3857) / tile_extent_in_zoom zoom < 0 :=
    div_neg_of_neg_of_pos (by linarith) hext
  have ht := ratTrunc_nonpos_of_neg _ hqneg
  have hn := num_tiles_in_zoom_pos zoom hz
  unfold mercx_to_tilex
  rw [toInt32_some _ hcast (by linarith)]
  simp only [Option.map_some']
  rw [clamp_eq_lo _ 0 _ ht (by omega)]
  rfl

/-- Monotonicity of `mercx_to_tilex` on the projection bounds, with the
range bound. -/
lemma mercx_mono_in_bounds (zoom : ℕ) (hz : zoom ≤ 30) (x1 x2 : ℚ)
    (h1 : -max_coordinate_epsg3857 ≤ x1) (h12 : x1 ≤ x2)
    (h2 : x2 ≤ max_coordinate_epsg3857) :
    ∃ t1 t2 : ℕ,
      mercx_to_tilex zoom x1 = some t1 ∧ mercx_to_tilex zoom x2 = some t2 ∧
      t1 ≤ t2 ∧ t2 ≤ num_tiles_in_zoom zoom - 1 := by
  have h1' : -max_coordinate_epsg3857 ≤ x2 := le_trans h1 h12
  have h2' : x1 ≤ max_coordinate_epsg3857 := le_trans h12 h2
  have hext := tile_extent_pos zoom hz
  have hpow1 := two_pow_int_pos zoom
  refine ⟨_, _, mercx_eval_in_bounds zoom hz x1 h1 h2',
    mercx_eval_in_bounds zoom hz x2 h1' h2, ?_, ?_⟩
  · apply Int.toNat_le_toNat
    apply clamp_mono _ _ _ _ _ (by omega)
    apply Int.floor_le_floor
    apply div_le_div_of_nonneg_right ?_ hext.le
    · linarith
  · have hle := clamp_le_hi
      ⌊(x2 + max_coordinate_epsg3857) / tile_extent_in_zoom zoom⌋ 0
      ((2 : ℤ) ^ zoom - 1) (by omega)
    rw [num_tiles_in_zoom_eq_pow zoom hz]
    have hcastn : (((2 : ℕ) ^ zoom : ℕ) : ℤ) = (2 : ℤ) ^ zoom := by push_cast; ring
    omega

/-- Any defined result of `mercx_to_tilex` is below the tile count. -/
lemma mercx_lt_num (zoom : ℕ) (hz : zoom ≤ 30) (x : ℚ) (t : ℕ)
    (h : mercx_to_tilex zoom x = some t) : t < num_tiles_in_zoom zoom := by
  unfold mercx_to_tilex at h
  rcases Option.map_eq_some'.mp h with ⟨v, _, ht⟩
  have hn := num_tiles_in_zoom_pos zoom hz
  have hle := clamp_le_hi v 0 ((num_tiles_in_zoom zoom : ℤ) - 1) (by omega)
  omega

/-- `mercy_to_tiley` is `mercx_to_tilex` at the negated coordinate. -/
lemma mercy_eq_mercx_neg (zoom : ℕ) (y : ℚ) :
    mercy_to_tiley zoom y = mercx_to_tilex zoom (-y) := by
  unfold mercy_to_tiley mercx_to_tilex
  rw [show max_coordinate_epsg3857 - y = -y + max_coordinate_epsg3857 from by ring]

/-! Claim theorems. -/

/-- C1: for every zoom level in [0, 30], `num_tiles_in_zoom zoom` returns
exactly `2 ^ zoom`. -/
theorem num_tiles_in_zoom_pow (zoom : ℕ) (h : zoom ≤ 30) :
    num_tiles_in_zoom zoom = 2 ^ zoom :=
  num_tiles_in_zoom_eq_pow zoom h

theorem num_tiles_in_zoom_pow_witness :
    (30 : ℕ) ≤ 30 ∧ num_tiles_in_zoom 30 = 2 ^ 30 :=
  ⟨by decide, num_tiles_in_zoom_pow 30 (by decide)⟩

/-- C9: for every zoom in [0, 30], `tile_extent_in_zoom zoom` times the tile
count `num_tiles_in_zoom zoom` is exactly `2 * max_coordinate_epsg3857`
(the model is exact rational arithmetic, so "within floating-point
tolerance" is satisfied with zero error). -/
theorem tile_extent_mul_num_tiles (zoom : ℕ) (h : zoom ≤ 30) :
    tile_extent_in_zoom zoom * (num_tiles_in_zoom zoom : ℚ)
      = 2 * max_coordinate_epsg3857 := by
  have hne : ((num_tiles_in_zoom zoom : ℚ)) ≠ 0 := by
    rw [num_tiles_in_zoom_eq_pow zoom h]
    positivity
  unfold tile_extent_in_zoom
  rw [div_mul_cancel₀ _ hne]
  ring

theorem tile_extent_mul_num_tiles_witness :
    (10 : ℕ) ≤ 30 ∧
      tile_extent_in_zoom 10 * (num_tiles_in_zoom 10 : ℚ)
        = 2 * max_coordinate_epsg3857 :=
  ⟨by decide, tile_extent_mul_num_tiles 10 (by decide)⟩

/-- C2 (amended): at the minimum projection bound `mercx_to_tilex` returns
`0`; at the maximum bound it returns `num_tiles_in_zoom zoom - 1`; and for
`x` beyond either bound the result still saturates to the nearest end of
`[0, num_tiles_in_zoom zoom - 1]` PROVIDED the truncated intermediate
quotient fits in `int32`.  The unconditional claim is false: for `x` far
enough out the `static_cast<int32_t>` is applied to a value outside int32
range, which is undefined behaviour, not a clamped result (see the
counterexample `mercx_to_tilex_overflow_cex`). -/
theorem mercx_to_tilex_boundary_clamp (zoom : ℕ) (hz : zoom ≤ 30) :
    mercx_to_tilex zoom (-max_coordinate_epsg3857) = some 0 ∧
    mercx_to_tilex zoom max_coordinate_epsg3857
      = some (num_tiles_in_zoom zoom - 1) ∧
    (∀ x : ℚ, max_coordinate_epsg3857 < x →
      ratTrunc ((x + max_coordinate_epsg3857) / tile_extent_in_zoom zoom)
          ≤ 2 ^ 31 - 1 →
      mercx_to_tilex zoom x = some (num_tiles_in_zoom zoom - 1)) ∧
    (∀ x : ℚ, x < -max_coordinate_epsg3857 →
      -(2 ^ 31)
          ≤ ratTrunc ((x + max_coordinate_epsg3857) / tile_extent_in_zoom zoom) →
      mercx_to_tilex zoom x = some 0) :=
  ⟨mercx_at_min zoom hz, mercx_at_max zoom hz,
    fun x hx hc => mercx_beyond_max zoom hz x hx hc,
    fun x hx hc => mercx_beyond_min zoom hz x hx hc⟩

theorem mercx_to_tilex_boundary_clamp_witness :
    (1 : ℕ) ≤ 30 ∧
    (mercx_to_tilex 1 (-max_coordinate_epsg3857) = some 0 ∧
     mercx_to_tilex 1 max_coordinate_epsg3857 = some (num_tiles_in_zoom 1 - 1) ∧
     (∀ x : ℚ, max_coordinate_epsg3857 < x →
       ratTrunc ((x + max_coordinate_epsg3857) / tile_extent_in_zoom 1)
           ≤ 2 ^ 31 - 1 →
       mercx_to_tilex 1 x = some (num_tiles_in_zoom 1 - 1)) ∧
     (∀ x : ℚ, x < -max_coordinate_epsg3857 →
       -(2 ^ 31)
           ≤ ratTrunc ((x + max_coordinate_epsg3857) / tile_extent_in_zoom 1) →
       mercx_to_tilex 1 x = some 0)) :=
  ⟨by decide, mercx_to_tilex_boundary_clamp 1 (by decide)⟩

/-- C2 counterexample: at zoom 30 with `x = 3 * max_coordinate_epsg3857` —
exactly `2 * maxCoordinate` beyond the maximum bound, the claim's own
example — the truncated intermediate quotient is `2^31`, outside int32
range, so the conversion is undefined rather than clamped into
`[0, num_tiles_in_zoom 30 - 1]`. -/
theorem mercx_to_tilex_overflow_cex :
    mercx_to_tilex 30 (3 * max_coordinate_epsg3857) = none ∧
    ratTrunc ((3 * max_coordinate_epsg3857 + max_coordinate_epsg3857)
        / tile_extent_in_zoom 30) = 2 ^ 31 := by
  constructor
  · with_unfolding_all decide
  · with_unfolding_all decide

/-- C3: for every zoom in [0, 30] and `x1 ≤ x2` within the projection
bounds, `mercx_to_tilex` is defined and monotonically non-decreasing, and
both results lie in `[0, num_tiles_in_zoom zoom - 1]`. -/
theorem mercx_to_tilex_mono (zoom : ℕ) (hz : zoom ≤ 30) (x1 x2 : ℚ)
    (h1 : -max_coordinate_epsg3857 ≤ x1) (h12 : x1 ≤ x2)
    (h2 : x2 ≤ max_coordinate_epsg3857) :
    ∃ t1 t2 : ℕ,
      mercx_to_tilex zoom x1 = some t1 ∧ mercx_to_tilex zoom x2 = some t2 ∧
      t1 ≤ t2 ∧ t1 ≤ num_tiles_in_zoom zoom - 1 ∧
      t2 ≤ num_tiles_in_zoom zoom - 1 := by
  obtain ⟨t1, t2, e1, e2, hle, hb⟩ := mercx_mono_in_bounds zoom hz x1 x2 h1 h12 h2
  exact ⟨t1, t2, e1, e2, hle, le_trans hle hb, hb⟩

theorem mercx_to_tilex_mono_witness :
    (2 : ℕ) ≤ 30 ∧ -max_coordinate_epsg3857 ≤ (0 : ℚ) ∧
    (0 : ℚ) ≤ max_coordinate_epsg3857 ∧
    max_coordinate_epsg3857 ≤ max_coordinate_epsg3857 ∧
    ∃ t1 t2 : ℕ,
      mercx_to_tilex 2 0 = some t1 ∧
      mercx_to_tilex 2 max_coordinate_epsg3857 = some t2 ∧
      t1 ≤ t2 ∧ t1 ≤ num_tiles_in_zoom 2 - 1 ∧ t2 ≤ num_tiles_in_zoom 2 - 1 :=
  ⟨by decide, by norm_num [max_coordinate_epsg3857],
    by norm_num [max_coordinate_epsg3857], le_rfl,
    mercx_to_tilex_mono 2 (by decide) 0 max_coordinate_epsg3857
      (by norm_num [max_coordinate_epsg3857])
      (by norm_num [max_coordinate_epsg3857]) le_rfl⟩

/-- C4 (amended): for every zoom in [0, 30], `mercy_to_tiley` is defined
and monotonically non-increasing on the projection bounds with results in
`[0, num_tiles_in_zoom zoom - 1]`, returns `0` at the maximum bound and
`num_tiles_in_zoom zoom - 1` at the minimum bound, and saturates for
out-of-range `y` PROVIDED the truncated intermediate quotient fits in
`int32`.  As for `mercx_to_tilex`, the unconditional out-of-range claim is
false: far enough out the int32 conversion is undefined (see
`mercy_to_tiley_overflow_cex`). -/
theorem mercy_to_tiley_antitone_clamp (zoom : ℕ) (hz : zoom ≤ 30) :
    (∀ y1 y2 : ℚ, -max_coordinate_epsg3857 ≤ y1 → y1 ≤ y2 →
      y2 ≤ max_coordinate_epsg3857 →
      ∃ t1 t2 : ℕ,
        mercy_to_tiley zoom y1 = some t1 ∧ mercy_to_tiley zoom y2 = some t2 ∧
        t2 ≤ t1 ∧ t1 ≤ num_tiles_in_zoom zoom - 1 ∧
        t2 ≤ num_tiles_in_zoom zoom - 1) ∧
    mercy_to_tiley zoom max_coordinate_epsg3857 = some 0 ∧
    mercy_to_tiley zoom (-max_coordinate_epsg3857)
      = some (num_tiles_in_zoom zoom - 1) ∧
    (∀ y : ℚ, y < -max_coordinate_epsg3857 →
      ratTrunc ((max_coordinate_epsg3857 - y) / tile_extent_in_zoom zoom)
          ≤ 2 ^ 31 - 1 →
      mercy_to_tiley zoom y = some (num_tiles_in_zoom zoom - 1)) ∧
    (∀ y : ℚ, max_coordinate_epsg3857 < y →
      -(2 ^ 31)
          ≤ ratTrunc ((max_coordinate_epsg3857 - y) / tile_extent_in_zoom zoom) →
      mercy_to_tiley zoom y = some 0) := by
  refine ⟨?_, ?_, ?_, ?_, ?_⟩
  · intro y1 y2 hy1 h12 hy2
    obtain ⟨ta, tb, ea, eb, hab, hbb⟩ := mercx_mono_in_bounds zoom hz (-y2) (-y1)
      (by linarith) (by linarith) (by linarith)
    refine ⟨tb, ta, ?_, ?_, hab, hbb, le_trans hab hbb⟩
    · rw [mercy_eq_mercx_neg]
      exact eb
    · rw [mercy_eq_mercx_neg]
      exact ea
  · rw [mercy_eq_mercx_neg]
    exact mercx_at_min zoom hz
  · rw [mercy_eq_mercx_neg, neg_neg]
    exact mercx_at_max zoom hz
  · intro y hy hc
    rw [mercy_eq_mercx_neg]
    refine mercx_beyond_max zoom hz (-y) (by linarith) ?_
    rw [show -y + max_coordinate_epsg3857 = max_coordinate_epsg3857 - y from by ring]
    exact hc
  · intro y hy hc
    rw [mercy_eq_mercx_neg]
    refine mercx_beyond_min zoom hz (-y) (by linarith) ?_
    rw [show -y + max_coordinate_epsg3857 = max_coordinate_epsg3857 - y from by ring]
    exact hc

theorem mercy_to_tiley_antitone_clamp_witness :
    (1 : ℕ) ≤ 30 ∧
    ((∀ y1 y2 : ℚ, -max_coordinate_epsg3857 ≤ y1 → y1 ≤ y2 →
       y2 ≤ max_coordinate_epsg3857 →
       ∃ t1 t2 : ℕ,
         mercy_to_tiley 1 y1 = some t1 ∧ mercy_to_tiley 1 y2 = some t2 ∧
         t2 ≤ t1 ∧ t1 ≤ num_tiles_in_zoom 1 - 1 ∧
         t2 ≤ num_tiles_in_zoom 1 - 1) ∧
     mercy_to_tiley 1 max_coordinate_epsg3857 = some 0 ∧
     mercy_to_tiley 1 (-max_coordinate_epsg3857) = some (num_tiles_in_zoom 1 - 1) ∧
     (∀ y : ℚ, y < -max_coordinate_epsg3857 →
       ratTrunc ((max_coordinate_epsg3857 - y) / tile_extent_in_zoom 1)
           ≤ 2 ^ 31 - 1 →
       mercy_to_tiley 1 y = some (num_tiles_in_zoom 1 - 1)) ∧
     (∀ y : ℚ, max_coordinate_epsg3857 < y →
       -(2 ^ 31)
           ≤ ratTrunc ((max_coordinate_epsg3857 - y) / tile_extent_in_zoom 1) →
       mercy_to_tiley 1 y = some 0)) :=
  ⟨by decide, mercy_to_tiley_antitone_clamp 1 (by decide)⟩

/-- C4 counterexample: at zoom 30 with `y = -(3 * max_coordinate_epsg3857)`
(2 × maxCoordinate beyond the minimum bound) the truncated intermediate
quotient is `2^31`, outside int32 range, so the conversion is undefined
rather than clamped into `[0, num_tiles_in_zoom 30 - 1]`. -/
theorem mercy_to_tiley_overflow_cex :
    mercy_to_tiley 30 (-(3 * max_coordinate_epsg3857)) = none ∧
    ratTrunc ((max_coordinate_epsg3857 - -(3 * max_coordinate_epsg3857))
        / tile_extent_in_zoom 30) = 2 ^ 31 := by
  constructor
  · with_unfolding_all decide
  · with_unfolding_all decide

lemma tileLt_iff (a b : Tile) :
    tileLt a b = true ↔
      a.z < b.z ∨ (a.z = b.z ∧ (a.x < b.x ∨ (a.x = b.x ∧ a.y < b.y))) := by
  unfold tileLt
  split_ifs with h1 h2 h3 h4 <;> simp <;> omega

lemma tileEq_iff (a b : Tile) :
    tileEq a b = true ↔ a.z = b.z ∧ a.x = b.x ∧ a.y = b.y := by
  unfold tileEq
  simp [Bool.and_eq_true, and_assoc]

/-- C5: `Tile.valid` is a pure predicate that holds exactly when `z ≤ 30`
and both indices are below `num_tiles_in_zoom z`; in particular the tile
(zoom 2, x 3, y 3) is valid, a tile whose `x` equals `num_tiles_in_zoom`
of its zoom is invalid, and any tile with `z = 31` is invalid. -/
theorem tile_valid_iff :
    (∀ t : Tile,
      (Tile.valid t = true ↔
        t.z ≤ 30 ∧ t.x < num_tiles_in_zoom t.z ∧ t.y < num_tiles_in_zoom t.z)) ∧
    Tile.valid ⟨3, 3, 2⟩ = true ∧
    (∀ zoom ty : ℕ, Tile.valid ⟨num_tiles_in_zoom zoom, ty, zoom⟩ = false) ∧
    (∀ tx ty : ℕ, Tile.valid ⟨tx, ty, 31⟩ = false) := by
  refine ⟨?_, by decide, ?_, ?_⟩
  · intro t
    unfold Tile.valid Tile.max_zoom
    split_ifs with h
    · simp only [Bool.false_eq_true, false_iff]
      omega
    · simp only [Bool.and_eq_true, decide_eq_true_eq]
      constructor
      · rintro ⟨hx, hy⟩
        exact ⟨by omega, hx, hy⟩
      · rintro ⟨_, hx, hy⟩
        exact ⟨hx, hy⟩
  · intro zoom ty
    unfold Tile.valid Tile.max_zoom
    split_ifs with h
    · rfl
    · simp
  · intro tx ty
    unfold Tile.valid Tile.max_zoom
    rfl

/-- C6: tile equality holds exactly when all three of `x`, `y`, `z` agree;
two tiles built from identical components are equal, and `!=` is the exact
negation of `==`. -/
theorem tile_eq_iff :
    (∀ a b : Tile, (tileEq a b = true ↔ a.x = b.x ∧ a.y = b.y ∧ a.z = b.z)) ∧
    (∀ zoom tx ty : ℕ, tileEq ⟨tx, ty, zoom⟩ ⟨tx, ty, zoom⟩ = true) ∧
    (∀ a b : Tile, tileNe a b = !tileEq a b) := by
  refine ⟨?_, ?_, ?_⟩
  · intro a b
    rw [tileEq_iff]
    tauto
  · intro zoom tx ty
    simp [tileEq]
  · intro a b
    rfl

/-- C7: `tileLt` is a strict total order — irreflexive, transitive, and
for every pair exactly one of `a < b`, `b < a`, `a == b` holds — ordering
lexicographically by `z`, then `x`, then `y`; in particular the tile
(zoom 1, x 0, y 0) precedes (zoom 2, x 0, y 0), which precedes
(zoom 2, x 0, y 1). -/
theorem tile_lt_strict_total_order :
    (∀ a : Tile, tileLt a a = false) ∧
    (∀ a b c : Tile, tileLt a b = true → tileLt b c = true → tileLt a c = true) ∧
    (∀ a b : Tile,
      (tileLt a b = true ∧ tileLt b a = false ∧ tileEq a b = false) ∨
      (tileLt a b = false ∧ tileLt b a = true ∧ tileEq a b = false) ∨
      (tileLt a b = false ∧ tileLt b a = false ∧ tileEq a b = true)) ∧
    tileLt ⟨0, 0, 1⟩ ⟨0, 0, 2⟩ = true ∧
    tileLt ⟨0, 0, 2⟩ ⟨0, 1, 2⟩ = true := by
  refine ⟨?_, ?_, ?_, by decide, by decide⟩
  · intro a
    rw [Bool.eq_false_iff, Ne, tileLt_iff]
    omega
  · intro a b c hab hbc
    rw [tileLt_iff] at hab hbc ⊢
    omega
  · intro a b
    simp only [Bool.eq_false_iff, Ne, tileLt_iff, tileEq_iff]
    omega

theorem tile_lt_strict_total_order_witness :
    tileLt ⟨0, 0, 1⟩ ⟨0, 1, 2⟩ = true :=
  tile_lt_strict_total_order.2.1 ⟨0, 0, 1⟩ ⟨0, 0, 2⟩ ⟨0, 1, 2⟩
    (by decide) (by decide)

/-- C8: building a tile from a location by first converting it to projected
coordinates with the location-to-mercator transform and then using the
coordinate constructor gives the same result as the combined location
constructor — the two construction paths agree for every transform, zoom in
[0, 30] and location. -/
theorem tile_construction_paths_agree (lonlat_to_mercator : Location → Coordinates)
    (zoom : ℕ) (_hz : zoom ≤ 30) (location : Location) :
    tile_from_location lonlat_to_mercator zoom location
      = tile_from_coordinates zoom (lonlat_to_mercator location) :=
  rfl

theorem tile_construction_paths_agree_witness :
    (2 : ℕ) ≤ 30 ∧
    tile_from_location (fun l => ⟨l.lon, l.lat⟩) 2 ⟨1, 1⟩
      = tile_from_coordinates 2 (⟨1, 1⟩ : Coordinates) :=
  ⟨by decide, tile_construction_paths_agree (fun l => ⟨l.lon, l.lat⟩) 2 (by decide) ⟨1, 1⟩⟩

/-- C10: every tile built through the coordinate-pair constructor or the
location constructor at a zoom in [0, 30] — whenever the intermediate int32
conversions are defined — satisfies `Tile.valid`, because both coordinate
conversions clamp their results into `[0, num_tiles_in_zoom zoom - 1]`. -/
theorem tile_constructors_valid :
    (∀ (zoom : ℕ) (c : Coordinates) (t : Tile), zoom ≤ 30 →
      tile_from_coordinates zoom c = some t → Tile.valid t = true) ∧
    (∀ (m : Location → Coordinates) (zoom : ℕ) (loc : Location) (t : Tile),
      zoom ≤ 30 → tile_from_location m zoom loc = some t → Tile.valid t = true) := by
  have key : ∀ (zoom : ℕ) (c : Coordinates) (t : Tile), zoom ≤ 30 →
      tile_from_coordinates zoom c = some t → Tile.valid t = true := by
    intro zoom c t hz h
    unfold tile_from_coordinates at h
    cases hx : mercx_to_tilex zoom c.x with
    | none => rw [hx] at h; cases h
    | some tx =>
      cases hy : mercy_to_tiley zoom c.y with
      | none => rw [hx, hy] at h; cases h
      | some ty =>
        rw [hx, hy] at h
        have ht : t = ⟨tx, ty, zoom⟩ := (Option.some_inj.mp h).symm
        subst ht
        have hbx := mercx_lt_num zoom hz c.x tx hx
        have hby : ty < num_tiles_in_zoom zoom := by
          rw [mercy_eq_mercx_neg] at hy
          exact mercx_lt_num zoom hz (-c.y) ty hy
        unfold Tile.valid Tile.max_zoom
        dsimp only
        rw [if_neg (by omega)]
        simp only [Bool.and_eq_true, decide_eq_true_eq]
        exact ⟨hbx, hby⟩
  exact ⟨key, fun m zoom loc t hz h => key zoom (m loc) t hz h⟩

theorem tile_constructors_valid_witness :
    (0 : ℕ) ≤ 30 ∧ Tile.valid ⟨0, 0, 0⟩ = true :=
  ⟨by decide, tile_constructors_valid.1 0 ⟨0, 0⟩ ⟨0, 0, 0⟩ (by decide)
    (by with_unfolding_all decide)⟩

end Osmium
